import Mathlib

/-!
Shallow embedding of the poker rules engine: the hand evaluator and the pot
manager (src/unnamed/part_000) and the table state machine
(src/unnamed/part_001).  Chips are natural numbers, JavaScript objects keyed
by player id are association lists (the engine creates an entry for every
seated player at the start of a hand), and the has-acted map is a function
from ids to booleans since it is read and written only pointwise.  Event
emission, timers, the deck, the bot policy and the action-history log move no
chips and are omitted.
-/

namespace PokerEngine

/-- Suits of a French deck, as listed in SUITS. -/
inductive Suit
  | spades | hearts | diamonds | clubs
deriving DecidableEq

/-- Card: a suit plus the numeric value RANK_VALUES assigns to its rank
(2..14); the rank string is determined by the value and omitted. -/
structure Card where
  suit : Suit
  value : Nat
deriving DecidableEq

/-- Result record produced by HandEvaluator.evaluate5Cards: the ranking
ordinal from HAND_RANKINGS, the display name, the tie-break values vector,
and the sorted five cards. -/
structure HandResult where
  ranking : Nat
  name : String
  values : List Nat
  cards : List Card
deriving DecidableEq

/-- Tail of the kicker loop of HandEvaluator.compareHands once the first
values vector is exhausted: the loop then compares the default 0 against the
remaining entries of the second vector, returning the negation of the first
nonzero one. -/
def compareValuesTail : List Nat → Int
  | [] => 0
  | b :: bs => if b ≠ 0 then -(b : Int) else compareValuesTail bs

/-- Kicker loop of HandEvaluator.compareHands: walk the two values vectors in
step, treating a missing entry as 0, and return the first nonzero
difference.  The recursion visits exactly the indices of the source's loop
up to max(length, length). -/
def compareValues : List Nat → List Nat → Int
  | [], w => compareValuesTail w
  | a :: as, [] => if a ≠ 0 then (a : Int) else compareValues as []
  | a :: as, b :: bs => if a ≠ b then (a : Int) - (b : Int) else compareValues as bs

/-- HandEvaluator.compareHands: compare rankings first, then the values
vectors with missing trailing entries read as 0. -/
def compareHands (hand1 hand2 : HandResult) : Int :=
  if hand1.ranking ≠ hand2.ranking then (hand1.ranking : Int) - (hand2.ranking : Int)
  else compareValues hand1.values hand2.values

/-- Insertion step for sorting cards by descending value, mirroring the
source comparator (a, b) => b.value - a.value. -/
def insertCardDesc (c : Card) : List Card → List Card
  | [] => [c]
  | d :: ds => if c.value > d.value then c :: d :: ds else d :: insertCardDesc c ds

/-- Sort cards by descending value. -/
def sortCardsDesc (cards : List Card) : List Card :=
  cards.foldr insertCardDesc []

/-- Insertion step for sorting naturals ascending (comparator (a, b) => a - b). -/
def insertNatAsc (n : Nat) : List Nat → List Nat
  | [] => [n]
  | m :: ms => if n < m then n :: m :: ms else m :: insertNatAsc n ms

/-- Sort naturals ascending. -/
def sortNatAsc (l : List Nat) : List Nat :=
  l.foldr insertNatAsc []

/-- Insertion step for sorting naturals descending (comparator (a, b) => b - a). -/
def insertNatDesc (n : Nat) : List Nat → List Nat
  | [] => [n]
  | m :: ms => if n > m then n :: m :: ms else m :: insertNatDesc n ms

/-- Sort naturals descending. -/
def sortNatDesc (l : List Nat) : List Nat :=
  l.foldr insertNatDesc []

/-- HandEvaluator.checkFlush: every card has the suit of the first card. -/
def checkFlush (cards : List Card) : Bool :=
  match cards with
  | [] => true
  | c :: _ => cards.all (fun card => card.suit == c.suit)

/-- Adjacent-step loop of HandEvaluator.checkStraight: each value exceeds the
next by exactly 1. -/
def isConsecutiveDesc : List Nat → Bool
  | a :: b :: rest => (a == b + 1) && isConsecutiveDesc (b :: rest)
  | _ => true

/-- HandEvaluator.checkStraight: re-sort the values descending, detect a run
of step-1 values (returning the high value) or the wheel A-5-4-3-2
(returning 5); otherwise none (the source's null). -/
def checkStraight (cards : List Card) : Option Nat :=
  let values := sortNatDesc (cards.map (fun c => c.value))
  if isConsecutiveDesc values then some (values.headD 0)
  else if values.getD 0 0 = 14 ∧ values.getD 1 0 = 5 ∧ values.getD 2 0 = 4 ∧
      values.getD 3 0 = 3 ∧ values.getD 4 0 = 2 then some 5
  else none

/-- Value of the first card of a rank group (groups are nonempty by
construction). -/
def groupValue (g : List Card) : Nat :=
  match g with
  | [] => 0
  | c :: _ => c.value

/-- Comparator of the sort in HandEvaluator.groupByRank: bigger groups first,
then higher group value first. -/
def groupBefore (a b : List Card) : Bool :=
  if b.length ≠ a.length then decide (b.length < a.length)
  else decide (groupValue b < groupValue a)

/-- Insertion step for sorting rank groups by groupBefore. -/
def insertGroup (g : List Card) : List (List Card) → List (List Card)
  | [] => [g]
  | h :: t => if groupBefore g h then g :: h :: t else h :: insertGroup g t

/-- Accumulate a value if unseen, keeping first-appearance order (the
behaviour of pushing into a JavaScript Set or of an includes-guarded push). -/
def addUnique (seen : List Nat) (a : Nat) : List Nat :=
  if a ∈ seen then seen else seen ++ [a]

/-- HandEvaluator.groupByRank: bucket the cards by value and order the groups
by size descending then value descending.  The key enumeration order is
immaterial because the final sort is total on the distinct groups. -/
def groupByRank (cards : List Card) : List (List Card) :=
  let keys := (cards.map (fun c => c.value)).foldl addUnique []
  let groups := keys.map (fun v => cards.filter (fun c => c.value == v))
  groups.foldr insertGroup []

/-- HandEvaluator.evaluate5Cards: classify five cards, producing the
HAND_RANKINGS ordinal (HIGH_CARD 1 .. ROYAL_FLUSH 10), the display name, the
tie-break values, and the descending-sorted cards. -/
def evaluate5Cards (cards : List Card) : HandResult :=
  let sorted := sortCardsDesc cards
  let isFlush := checkFlush sorted
  let straightValue := checkStraight sorted
  let groups := groupByRank sorted
  let g0 := groups.getD 0 []
  let g1 := groups.getD 1 []
  let g2 := groups.getD 2 []
  let g3 := groups.getD 3 []
  if isFlush ∧ straightValue = some 14 then
    { ranking := 10, name := "Royal Flush", values := [14], cards := sorted }
  else if isFlush ∧ straightValue.isSome then
    { ranking := 9, name := "Straight Flush", values := [straightValue.getD 0], cards := sorted }
  else if groups.length = 2 ∧ g0.length = 4 then
    { ranking := 8, name := "Four of a Kind", values := [groupValue g0, groupValue g1], cards := sorted }
  else if groups.length = 2 ∧ g0.length = 3 ∧ g1.length = 2 then
    { ranking := 7, name := "Full House", values := [groupValue g0, groupValue g1], cards := sorted }
  else if isFlush then
    { ranking := 6, name := "Flush", values := sorted.map (fun c => c.value), cards := sorted }
  else if straightValue.isSome then
    { ranking := 5, name := "Straight", values := [straightValue.getD 0], cards := sorted }
  else if groups.length = 3 ∧ g0.length = 3 then
    { ranking := 4, name := "Three of a Kind",
      values := [groupValue g0, groupValue g1, groupValue g2], cards := sorted }
  else if groups.length = 3 ∧ g0.length = 2 ∧ g1.length = 2 then
    { ranking := 3, name := "Two Pair",
      values := [groupValue g0, groupValue g1, groupValue g2], cards := sorted }
  else if groups.length = 4 ∧ g0.length = 2 then
    { ranking := 2, name := "Pair",
      values := [groupValue g0, groupValue g1, groupValue g2, groupValue g3], cards := sorted }
  else
    { ranking := 1, name := "High Card", values := sorted.map (fun c => c.value), cards := sorted }

/-- HandEvaluator.getCombinations: all size-element combinations of arr, in
the order the source's backtracking enumeration produces them (elements
containing the head first, then those from the tail). -/
def getCombinations : List Card → Nat → List (List Card)
  | _, 0 => [[]]
  | [], _ + 1 => []
  | a :: as, n + 1 => (getCombinations as n).map (fun c => a :: c) ++ getCombinations as (n + 1)

/-- Loop body of the best-hand scan: evaluate the combination and keep it
when it compares strictly greater than the best so far (or when there is no
best yet). -/
def bestStep (bestHand : Option HandResult) (combo : List Card) : Option HandResult :=
  let hand := evaluate5Cards combo
  match bestHand with
  | none => some hand
  | some best => if compareHands hand best > 0 then some hand else some best

/-- Best-hand fold shared by HandEvaluator.evaluateHand's 6-card branch and
HandEvaluator.findBest5CardHand. -/
def bestOfCombinations (combos : List (List Card)) : Option HandResult :=
  combos.foldl bestStep none

/-- HandEvaluator.findBest5CardHand. -/
def findBest5CardHand (cards : List Card) : Option HandResult :=
  bestOfCombinations (getCombinations cards 5)

/-- HandEvaluator.evaluateHand; none models the thrown precondition error for
fewer than five cards. -/
def evaluateHand (cards : List Card) : Option HandResult :=
  if cards.length < 5 then none
  else if cards.length = 7 then findBest5CardHand cards
  else if cards.length = 6 then bestOfCombinations (getCombinations cards 5)
  else some (evaluate5Cards cards)

/-- Pot record of PotManager. -/
structure Pot where
  amount : Nat
  eligiblePlayers : List Nat
deriving DecidableEq

/-- Player record of the table engine (part_001).  The bot personality and
decision engine carry no chips and are omitted; isActive is never read. -/
structure Player where
  id : Nat
  name : String
  stack : Nat
  isHuman : Bool
  holeCards : List Card
  currentBet : Nat
  totalBet : Nat
  folded : Bool
  allIn : Bool
  lastAction : Option String
deriving DecidableEq

/-- Lookup in a JavaScript object keyed by player id, with the source's
missing-key default of 0 (currentBets[player.id] || 0). -/
def getBet (bets : List (Nat × Nat)) (pid : Nat) : Nat :=
  (List.lookup pid bets).getD 0

/-- Ladder walk of PotManager.createPots over the ascending bet levels,
carrying previousLevel. -/
def potLadder (players : List Player) (currentBets : List (Nat × Nat)) :
    List Nat → Nat → List Pot
  | [], _ => []
  | level :: rest, previousLevel =>
    let pot : Pot :=
      { amount :=
          (players.map (fun p =>
            let playerBet := getBet currentBets p.id
            if playerBet ≥ level then min level playerBet - previousLevel else 0)).sum
        eligiblePlayers :=
          ((players.filter (fun p =>
            !p.folded && decide (getBet currentBets p.id ≥ level))).map
              (fun p => p.id)).foldl addUnique [] }
    (if pot.amount > 0 then [pot] else []) ++ potLadder players currentBets rest level

/-- PotManager.createPots: collect the distinct bet amounts ascending, bail
out when there are no levels or the smallest level is 0 (the pot list having
already been cleared), and otherwise build the ladder. -/
def createPots (players : List Player) (currentBets : List (Nat × Nat)) : List Pot :=
  let betLevels := sortNatAsc ((currentBets.map Prod.snd).foldl addUnique [])
  if betLevels = [] ∨ betLevels.headD 0 = 0 then []
  else potLadder players currentBets betLevels 0

/-- PotManager.getTotalPot. -/
def getTotalPot (pots : List Pot) : Nat :=
  (pots.map Pot.amount).sum

/-- Payout operation emitted by PotManager.distributePots. -/
structure Operation where
  playerId : Nat
  amount : Nat
  type : String
  hand : Option HandResult
deriving DecidableEq

/-- Winner-scan step of PotManager.distributePots: keep the best hand seen so
far and the players tying it. -/
def winnersStep (handEvaluations : Nat → HandResult) :
    Option HandResult × List Player → Player → Option HandResult × List Player
  | (none, _), player => (some (handEvaluations player.id), [player])
  | (some bestHand, winners), player =>
    let comparison := compareHands (handEvaluations player.id) bestHand
    if comparison > 0 then (some (handEvaluations player.id), [player])
    else if comparison = 0 then (some bestHand, winners ++ [player])
    else (some bestHand, winners)

/-- Winner list over the eligible players, in scan order. -/
def findWinners (handEvaluations : Nat → HandResult) (eligiblePlayers : List Player) :
    List Player :=
  (eligiblePlayers.foldl (winnersStep handEvaluations) (none, [])).2

/-- Case analysis of one pot's loop body in PotManager.distributePots over
the pot's live eligible players: skip a pot with none, refund a pot with
exactly one, and otherwise split the amount among the tied winners, the
integer remainder going to the first winner (the one earliest in scan
order). -/
def potPayouts (pot : Pot) (handEvaluations : Nat → HandResult) :
    List Player → List Operation
  | [] => []
  | [p] => [{ playerId := p.id, amount := pot.amount, type := "return", hand := none }]
  | p :: q :: rest =>
    match findWinners handEvaluations (p :: q :: rest) with
    | [] => []
    | w :: ws =>
      let share := pot.amount / (w :: ws).length
      let remainder := pot.amount % (w :: ws).length
      { playerId := w.id, amount := share + remainder, type := "win",
        hand := some (handEvaluations w.id) } ::
        ws.map (fun v =>
          { playerId := v.id, amount := share, type := "win",
            hand := some (handEvaluations v.id) })

/-- Operations one pot contributes inside PotManager.distributePots: first
restrict the pot's eligible players to those not folded, then pay out. -/
def potOperations (players : List Player) (handEvaluations : Nat → HandResult)
    (pot : Pot) : List Operation :=
  potPayouts pot handEvaluations
    (players.filter (fun p => pot.eligiblePlayers.contains p.id && !p.folded))

/-- PotManager.distributePots: push each pot's operations in pot order. -/
def distributePots (pots : List Pot) (players : List Player)
    (handEvaluations : Nat → HandResult) : List Operation :=
  pots.foldl (fun operations pot => operations ++ potOperations players handEvaluations pot) []

/-- Player.bet from part_001: pay min(amount, stack), track the round and
hand totals, flag all-in at zero stack. -/
def Player.payBet (p : Player) (amount : Nat) : Player :=
  let actualBet := min amount p.stack
  { p with stack := p.stack - actualBet, currentBet := p.currentBet + actualBet,
           totalBet := p.totalBet + actualBet,
           allIn := if p.stack - actualBet = 0 then true else p.allIn }

/-- Amount Player.bet actually pays. -/
def Player.betActual (p : Player) (amount : Nat) : Nat :=
  min amount p.stack

/-- Player.canAct. -/
def Player.canAct (p : Player) : Bool :=
  !p.folded && !p.allIn && decide (p.stack > 0)

/-- PLAYER_ACTIONS. -/
inductive Action
  | fold | check | call | bet | raise | allIn
deriving DecidableEq

/-- TexasHoldemGame state (part_001), restricted to the chip-accounting and
turn-tracking fields.  The deck, community cards, street tag, hand counter,
action history and event callback move no chips and are omitted. -/
structure GameState where
  players : List Player
  pots : List Pot
  dealerIndex : Nat
  currentPlayerIndex : Nat
  currentBet : Nat
  minRaise : Nat
  smallBlind : Nat
  bigBlind : Nat
  currentBets : List (Nat × Nat)
  playersActedThisRound : Nat → Bool
  waitingForHumanAction : Bool
  lastRaiserIndex : Int

/-- Write to the currentBets object.  The engine only ever writes keys that
are present (startNewHand creates an entry per seated player); an absent key
is left alone. -/
def setEntry (bets : List (Nat × Nat)) (pid : Nat) (v : Nat) : List (Nat × Nat) :=
  bets.map (fun e => if e.1 = pid then (pid, v) else e)

/-- In-place mutation of the player object carrying the given id. -/
def updatePlayer (players : List Player) (pid : Nat) (f : Player → Player) : List Player :=
  players.map (fun p => if p.id = pid then f p else p)

/-- Reset loop of processPlayerAction's bet, raise and raising-all-in
branches: clear the has-acted flag of every player other than the actor. -/
def clearOthers (players : List Player) (actorId : Nat) (acted : Nat → Bool) : Nat → Bool :=
  players.foldl (fun m p => if p.id ≠ actorId then Function.update m p.id false else m) acted

/-- Starting total checked by TexasHoldemGame.validateGameState (six seats of
1000 chips). -/
def EXPECTED_TOTAL : Nat := 6000

/-- Chip total recomputed by TexasHoldemGame.validateGameState: stacks plus
current-round contributions plus settled pot amounts. -/
def totalChips (s : GameState) : Nat :=
  (s.players.map Player.stack).sum + (s.currentBets.map Prod.snd).sum + getTotalPot s.pots

/-- TexasHoldemGame.validateGameState: the chip-count comparison against
EXPECTED_TOTAL only emits an integrityError event; the state change is the
zero-stack all-in auto-correction. -/
def validateGameState (s : GameState) : GameState :=
  { s with players := s.players.map (fun p =>
      if p.stack = 0 ∧ p.allIn = false ∧ p.folded = false then { p with allIn := true } else p) }

/-- TexasHoldemGame.moveToNextPlayer; the deferred processNextAction call is
scheduling, not state. -/
def moveToNextPlayer (s : GameState) : GameState :=
  { s with currentPlayerIndex := (s.currentPlayerIndex + 1) % s.players.length }

/-- TexasHoldemGame.processPlayerAction.  The adaptive-personality update,
event emission and action log are omitted (they touch no accounting field);
the trailing validateGameState and moveToNextPlayer calls are applied.  The
lastAction strings drop the numeric suffixes of the display text, and the
raise branch's minRaise subtraction is truncated at 0 (the engine keeps
currentBet at least every player's round contribution). -/
def processPlayerAction (s : GameState) (pid : Nat) (action : Action) (amount : Nat) :
    GameState :=
  match s.players.find? (fun p => p.id == pid) with
  | none => s
  | some player =>
    let callAmount := s.currentBet - getBet s.currentBets pid
    let s1 : GameState :=
      { s with playersActedThisRound := Function.update s.playersActedThisRound pid true }
    let s2 : GameState :=
      match action with
      | Action.fold =>
        let newPlayers := updatePlayer s1.players pid
          (fun p => { p with folded := true, lastAction := some "fold" })
        { s1 with players := newPlayers }
      | Action.check =>
        let newPlayers := updatePlayer s1.players pid
          (fun p => { p with lastAction := some "check" })
        { s1 with players := newPlayers }
      | Action.call =>
        let actualCall := player.betActual callAmount
        let newPlayers := updatePlayer s1.players pid
          (fun p => { p.payBet callAmount with lastAction := some "call" })
        { s1 with
          players := newPlayers,
          currentBets := setEntry s1.currentBets pid (getBet s1.currentBets pid + actualCall) }
      | Action.bet =>
        let betAmount := player.betActual amount
        let newBets := setEntry s1.currentBets pid (getBet s1.currentBets pid + betAmount)
        let newPlayers := updatePlayer s1.players pid
          (fun p => { p.payBet amount with lastAction := some "bet" })
        { s1 with
          players := newPlayers,
          currentBets := newBets,
          currentBet := getBet newBets pid,
          minRaise := betAmount,
          lastRaiserIndex := (s1.currentPlayerIndex : Int),
          playersActedThisRound := clearOthers newPlayers pid s1.playersActedThisRound }
      | Action.raise =>
        let raiseAmount := player.betActual amount
        let newBets := setEntry s1.currentBets pid (getBet s1.currentBets pid + raiseAmount)
        let newPlayers := updatePlayer s1.players pid
          (fun p => { p.payBet amount with lastAction := some "raise" })
        { s1 with
          players := newPlayers,
          currentBets := newBets,
          currentBet := getBet newBets pid,
          minRaise := raiseAmount - callAmount,
          lastRaiserIndex := (s1.currentPlayerIndex : Int),
          playersActedThisRound := clearOthers newPlayers pid s1.playersActedThisRound }
      | Action.allIn =>
        let allInAmount := player.betActual player.stack
        let newBets := setEntry s1.currentBets pid (getBet s1.currentBets pid + allInAmount)
        let newPlayers := updatePlayer s1.players pid
          (fun p => { p.payBet p.stack with lastAction := some "all-in" })
        if getBet newBets pid > s1.currentBet then
          { s1 with
            players := newPlayers,
            currentBets := newBets,
            currentBet := getBet newBets pid,
            lastRaiserIndex := (s1.currentPlayerIndex : Int),
            playersActedThisRound := clearOthers newPlayers pid s1.playersActedThisRound }
        else
          { s1 with players := newPlayers, currentBets := newBets }
    moveToNextPlayer (validateGameState s2)

/-- TexasHoldemGame.isBettingRoundComplete. -/
def isBettingRoundComplete (s : GameState) : Bool :=
  let activePlayers := s.players.filter Player.canAct
  if activePlayers.length = 0 then true
  else if s.players.any (fun p => p.canAct && !(s.playersActedThisRound p.id)) then false
  else if s.players.any (fun p =>
      p.canAct && decide (getBet s.currentBets p.id < s.currentBet)) then false
  else true

/-- TexasHoldemGame.completeBettingRound: rebuild the pot list from the
round's contributions and zero them.  The progressGameState continuation only
deals cards or starts the next phase and moves no chips before the next
player action. -/
def completeBettingRound (s : GameState) : GameState :=
  let s' : GameState := { s with pots := createPots s.players s.currentBets }
  { s' with
    currentBets := s'.currentBets.map (fun e =>
      if s'.players.any (fun p => p.id == e.1) then (e.1, 0) else e),
    currentBet := 0 }

/-- TexasHoldemGame.humanAllIn. -/
def humanAllIn (s : GameState) : GameState :=
  if s.waitingForHumanAction = false then s
  else
    match s.players.head? with
    | none => s
    | some human =>
      processPlayerAction { s with waitingForHumanAction := false }
        human.id Action.allIn human.stack

/-- TexasHoldemGame.humanCall. -/
def humanCall (s : GameState) : GameState :=
  if s.waitingForHumanAction = false then s
  else
    match s.players.head? with
    | none => s
    | some human =>
      let callAmount := s.currentBet - getBet s.currentBets human.id
      if callAmount ≥ human.stack then humanAllIn s
      else
        processPlayerAction { s with waitingForHumanAction := false }
          human.id Action.call callAmount

/-- TexasHoldemGame.humanBet. -/
def humanBet (s : GameState) (amount : Nat) : GameState :=
  if s.waitingForHumanAction = false then s
  else
    match s.players.head? with
    | none => s
    | some human =>
      if amount ≥ human.stack then humanAllIn s
      else
        processPlayerAction { s with waitingForHumanAction := false }
          human.id Action.bet amount

/-- TexasHoldemGame.humanRaise. -/
def humanRaise (s : GameState) (amount : Nat) : GameState :=
  if s.waitingForHumanAction = false then s
  else
    match s.players.head? with
    | none => s
    | some human =>
      if amount ≥ human.stack then humanAllIn s
      else
        processPlayerAction { s with waitingForHumanAction := false }
          human.id Action.raise amount

/-! Concrete inputs used by the checks below. -/

/-- Concrete player: seat id, stack, round contribution and hand
contribution; not folded, not all-in. -/
def mkP (id stack curBet totBet : Nat) : Player :=
  { id := id, name := "", stack := stack, isHuman := decide (id = 0), holeCards := [],
    currentBet := curBet, totalBet := totBet, folded := false, allIn := false,
    lastAction := none }

/-- Shorthand for processing one action with the unused amount argument 0. -/
def act (s : GameState) (pid : Nat) (a : Action) : GameState :=
  processPlayerAction s pid a 0

/-- Pre-flop state of hand 1 right after the blinds are posted: dealer seat
0, small blind 5 from seat 1, big blind 10 from seat 2, every stack started
at 1000 (so the table total is 6000), seat 3 to act. -/
def handStart : GameState :=
  { players := [mkP 0 1000 0 0, mkP 1 995 5 5, mkP 2 990 10 10,
                mkP 3 1000 0 0, mkP 4 1000 0 0, mkP 5 1000 0 0],
    pots := [], dealerIndex := 0, currentPlayerIndex := 3, currentBet := 10, minRaise := 10,
    smallBlind := 5, bigBlind := 10,
    currentBets := [(0, 0), (1, 5), (2, 10), (3, 0), (4, 0), (5, 0)],
    playersActedThisRound := fun _ => false, waitingForHumanAction := false,
    lastRaiserIndex := -1 }

/-- The pre-flop round played out with only legal actions: seats 3, 4, 5, 0
call 10, seat 1 completes the small blind, seat 2 checks its option. -/
def preflopDone : GameState :=
  act (act (act (act (act (act handStart 3 Action.call) 4 Action.call) 5 Action.call)
    0 Action.call) 1 Action.call) 2 Action.check

/-- State right after the pre-flop settlement. -/
def afterFirstSettlement : GameState :=
  completeBettingRound preflopDone

/-- The flop round: every seat checks. -/
def flopChecked : GameState :=
  act (act (act (act (act (act afterFirstSettlement 1 Action.check) 2 Action.check)
    3 Action.check) 4 Action.check) 5 Action.check) 0 Action.check

/-- State right after the flop settlement. -/
def afterSecondSettlement : GameState :=
  completeBettingRound flopChecked

/-- Two live players whose contributions are 100 and 0. -/
def c2players : List Player := [mkP 0 900 100 100, mkP 1 1000 0 0]

/-- Contribution map with a zero entry. -/
def c2bets : List (Nat × Nat) := [(0, 100), (1, 0)]

/-- A pot whose lone operation list should carry 7 chips but has no eligible
player. -/
def c3pots : List Pot := [{ amount := 7, eligiblePlayers := [] }]

/-- One live player for the empty-eligibility pot. -/
def c3players : List Player := [mkP 0 0 0 0]

/-- A concrete winning-capable hand result (a pair). -/
def strongHand : HandResult :=
  { ranking := 2, name := "Pair", values := [10, 9, 8, 7], cards := [] }

/-- A concrete losing hand result (high card). -/
def weakHand : HandResult :=
  { ranking := 1, name := "High Card", values := [14, 12, 9, 7, 5], cards := [] }

/-- Hand evaluations giving every player the same hand. -/
def c3evals : Nat → HandResult := fun _ => strongHand

/-- A 10-chip pot with two live eligible players. -/
def c3wpots : List Pot := [{ amount := 10, eligiblePlayers := [0, 1] }]

/-- Two live players for the witness pot. -/
def c3wplayers : List Player := [mkP 0 0 0 0, mkP 1 0 0 0]

/-- A 25-chip pot whose second eligible player has folded. -/
def c4pot : Pot := { amount := 25, eligiblePlayers := [0, 1] }

/-- First player of the single-live-eligible scenario. -/
def c4p0 : Player := mkP 0 1000 0 0

/-- One live and one folded player, both nominally eligible. -/
def c4players : List Player := [c4p0, { mkP 1 1000 0 0 with folded := true }]

/-- Contributions {P0: 100, P1: 50} from the spec scenario. -/
def c5bets : List (Nat × Nat) := [(0, 100), (1, 50)]

/-- Players of the spec scenario: P0 and P1 live, everyone else folded. -/
def c5players : List Player :=
  [mkP 0 900 100 100, mkP 1 950 50 50, { mkP 2 1000 0 0 with folded := true }]

/-- Hand evaluations where P0 strictly beats P1. -/
def c5evals : Nat → HandResult := fun i => if i = 0 then strongHand else weakHand

/-- A 101-chip contested pot. -/
def c6pot : Pot := { amount := 101, eligiblePlayers := [0, 1] }

/-- Two live players tied for the 101-chip pot. -/
def c6players : List Player := [mkP 0 0 0 0, mkP 1 0 0 0]

/-- Hand evaluations giving the two players identical hands. -/
def c6evals : Nat → HandResult := fun _ => strongHand

/-- Six concrete cards (a pair of aces among them). -/
def c7cards : List Card :=
  [{ suit := Suit.spades, value := 14 }, { suit := Suit.hearts, value := 14 },
   { suit := Suit.spades, value := 9 }, { suit := Suit.clubs, value := 5 },
   { suit := Suit.diamonds, value := 2 }, { suit := Suit.hearts, value := 7 }]

/-- Three hand results with strictly decreasing rankings. -/
def c8handA : HandResult :=
  { ranking := 3, name := "Two Pair", values := [5, 4, 3], cards := [] }

/-- Middle hand of the chain. -/
def c8handB : HandResult := strongHand

/-- Weakest hand of the chain. -/
def c8handC : HandResult := weakHand

/-- A state in mid-round where seat 2 still has to match the table-high bet:
seat 1 has bet 10, seat 2 contributed 0 and has not acted. -/
def c9state : GameState :=
  { players := [mkP 1 990 10 10, mkP 2 1000 0 0],
    pots := [], dealerIndex := 0, currentPlayerIndex := 1, currentBet := 10, minRaise := 10,
    smallBlind := 5, bigBlind := 10,
    currentBets := [(1, 10), (2, 0)],
    playersActedThisRound := fun i => decide (i = 1), waitingForHumanAction := false,
    lastRaiserIndex := 0 }

/-- A state waiting on the human (seat 0) facing a 500-chip bet with only a
120-chip stack. -/
def c10state : GameState :=
  { players := [mkP 0 120 0 0, mkP 1 500 500 500],
    pots := [], dealerIndex := 1, currentPlayerIndex := 0, currentBet := 500, minRaise := 500,
    smallBlind := 5, bigBlind := 10,
    currentBets := [(0, 0), (1, 500)],
    playersActedThisRound := fun i => decide (i = 1), waitingForHumanAction := true,
    lastRaiserIndex := 1 }

/-- The human seat of the c10 scenario. -/
def c10human : Player := mkP 0 120 0 0

/-! Comparator facts.  compareValues and compareHands form a total preorder:
antisymmetric up to sign, reflexive at 0 and transitive. -/

/-- Head of a values vector with the missing-entry default 0. -/
def hd0 : List Nat → Nat
  | [] => 0
  | a :: _ => a

/-- Tail of a values vector, nil staying nil. -/
def tl0 : List Nat → List Nat
  | [] => []
  | _ :: t => t

theorem compareValues_nil_nil : compareValues [] [] = 0 := rfl

theorem compareValues_cons_nil (a : Nat) (as : List Nat) :
    compareValues (a :: as) [] = if a ≠ 0 then (a : Int) else compareValues as [] := rfl

theorem compareValues_cons_cons (a b : Nat) (as bs : List Nat) :
    compareValues (a :: as) (b :: bs) =
      if a ≠ b then (a : Int) - (b : Int) else compareValues as bs := rfl

theorem compareValues_nil_cons (b : Nat) (bs : List Nat) :
    compareValues [] (b :: bs) = if b ≠ 0 then -(b : Int) else compareValues [] bs := rfl

theorem compareValues_self (v : List Nat) : compareValues v v = 0 := by
  induction v with
  | nil => exact compareValues_nil_nil
  | cons a as ih => simp [compareValues, ih]

theorem compareValues_nil_neg (w : List Nat) :
    compareValues ([] : List Nat) w = -compareValues w [] := by
  induction w with
  | nil => simp [compareValues_nil_nil]
  | cons b bs ih =>
    rw [compareValues_nil_cons, compareValues_cons_nil]
    split_ifs with h
    · omega
    · exact ih

theorem compareValues_neg (v : List Nat) : ∀ w, compareValues v w = -compareValues w v := by
  induction v with
  | nil => exact fun w => compareValues_nil_neg w
  | cons a as ih =>
    intro w
    match w with
    | [] =>
      rw [compareValues_cons_nil, compareValues_nil_cons]
      split_ifs with h
      · omega
      · rw [ih []]
    | b :: bs =>
      rw [compareValues_cons_cons, compareValues_cons_cons]
      split_ifs with h h' h'
      · omega
      · exact absurd h.symm h'
      · exact absurd h'.symm h
      · rw [ih bs]

theorem tl0_length (l : List Nat) : (tl0 l).length = l.length - 1 := by
  cases l <;> simp [tl0]

theorem compareValues_le_iff (v w : List Nat) :
    compareValues v w ≤ 0 ↔
      hd0 v < hd0 w ∨ (hd0 v = hd0 w ∧ compareValues (tl0 v) (tl0 w) ≤ 0) := by
  match v, w with
  | [], [] => simp [compareValues_nil_nil, hd0, tl0]
  | a :: as, [] =>
    rw [compareValues_cons_nil]
    simp only [hd0, tl0]
    split_ifs with h
    · constructor
      · intro hle; exfalso; omega
      · rintro (hlt | ⟨heq, _⟩) <;> omega
    · constructor
      · intro hle; exact Or.inr ⟨by omega, hle⟩
      · rintro (hlt | ⟨heq, hle⟩)
        · omega
        · exact hle
  | [], b :: bs =>
    rw [compareValues_nil_cons]
    simp only [hd0, tl0]
    split_ifs with h
    · constructor
      · intro _; exact Or.inl (by omega)
      · intro _; omega
    · constructor
      · intro hle; exact Or.inr ⟨by omega, hle⟩
      · rintro (hlt | ⟨heq, hle⟩)
        · omega
        · exact hle
  | a :: as, b :: bs =>
    rw [compareValues_cons_cons]
    simp only [hd0, tl0]
    split_ifs with h
    · constructor
      · intro hle; exact Or.inl (by omega)
      · rintro (hlt | ⟨heq, _⟩)
        · omega
        · exact absurd heq h
    · constructor
      · intro hle; exact Or.inr ⟨by omega, hle⟩
      · rintro (hlt | ⟨heq, hle⟩)
        · omega
        · exact hle

theorem compareValues_le_trans_aux :
    ∀ n v w u, v.length + w.length + u.length ≤ n →
      compareValues v w ≤ 0 → compareValues w u ≤ 0 → compareValues v u ≤ 0 := by
  intro n
  induction n with
  | zero =>
    intro v w u hlen h1 h2
    have hv : v = [] := List.length_eq_zero.mp (by omega)
    have hu : u = [] := List.length_eq_zero.mp (by omega)
    subst hv; subst hu
    simp [compareValues_nil_nil]
  | succ n ih =>
    intro v w u hlen h1 h2
    rw [compareValues_le_iff] at h1 h2 ⊢
    rcases h1 with h1 | ⟨e1, r1⟩
    · rcases h2 with h2 | ⟨e2, r2⟩
      · exact Or.inl (lt_trans h1 h2)
      · exact Or.inl (e2 ▸ h1)
    · rcases h2 with h2 | ⟨e2, r2⟩
      · exact Or.inl (e1 ▸ h2)
      · refine Or.inr ⟨e1.trans e2, ?_⟩
        by_cases hall : v = [] ∧ w = [] ∧ u = []
        · obtain ⟨hv, hw, hu⟩ := hall
          subst hv; subst hu
          simp [tl0, compareValues_nil_nil]
        · have hone : 1 ≤ v.length + w.length + u.length := by
            by_contra hcon
            push_neg at hcon
            exact hall ⟨List.length_eq_zero.mp (by omega),
              List.length_eq_zero.mp (by omega), List.length_eq_zero.mp (by omega)⟩
          have hlen' : (tl0 v).length + (tl0 w).length + (tl0 u).length ≤ n := by
            rw [tl0_length, tl0_length, tl0_length]
            omega
          exact ih (tl0 v) (tl0 w) (tl0 u) hlen' r1 r2

theorem compareValues_le_trans {v w u : List Nat}
    (h1 : compareValues v w ≤ 0) (h2 : compareValues w u ≤ 0) :
    compareValues v u ≤ 0 :=
  compareValues_le_trans_aux (v.length + w.length + u.length) v w u le_rfl h1 h2

theorem compareHands_self (a : HandResult) : compareHands a a = 0 := by
  simp [compareHands, compareValues_self]

theorem compareHands_neg (a b : HandResult) : compareHands a b = -compareHands b a := by
  by_cases h : a.ranking = b.ranking
  · simp [compareHands, h, compareValues_neg a.values b.values]
  · have h' : ¬ b.ranking = a.ranking := fun hh => h hh.symm
    simp only [compareHands, ne_eq, h, h', not_false_eq_true, if_pos]
    omega

theorem compareHands_le_trans {a b c : HandResult}
    (h1 : compareHands a b ≤ 0) (h2 : compareHands b c ≤ 0) :
    compareHands a c ≤ 0 := by
  by_cases hab : a.ranking = b.ranking <;> by_cases hbc : b.ranking = c.ranking
  · have hac : a.ranking = c.ranking := hab.trans hbc
    rw [compareHands, if_neg (by simp [hab])] at h1
    rw [compareHands, if_neg (by simp [hbc])] at h2
    rw [compareHands, if_neg (by simp [hac])]
    exact compareValues_le_trans h1 h2
  · rw [compareHands, if_pos (by simpa using hbc)] at h2
    have : b.ranking < c.ranking := by omega
    have hac : a.ranking < c.ranking := by omega
    rw [compareHands, if_pos (by omega)]
    omega
  · rw [compareHands, if_pos (by simpa using hab)] at h1
    have : a.ranking < b.ranking := by omega
    have hac : a.ranking < c.ranking := by omega
    rw [compareHands, if_pos (by omega)]
    omega
  · rw [compareHands, if_pos (by simpa using hab)] at h1
    rw [compareHands, if_pos (by simpa using hbc)] at h2
    have : a.ranking < b.ranking := by omega
    have : b.ranking < c.ranking := by omega
    rw [compareHands, if_pos (by omega)]
    omega

theorem compareHands_lt_of_lt_of_le {a b c : HandResult}
    (h1 : compareHands a b < 0) (h2 : compareHands b c ≤ 0) :
    compareHands a c < 0 := by
  have hle : compareHands a c ≤ 0 := compareHands_le_trans (le_of_lt h1) h2
  rcases lt_or_eq_of_le hle with h | h
  · exact h
  · exfalso
    have hca : compareHands c a = 0 := by rw [compareHands_neg]; omega
    have hba : compareHands b a ≤ 0 := compareHands_le_trans h2 (le_of_eq hca)
    have : compareHands a b ≥ 0 := by rw [compareHands_neg]; omega
    omega

theorem compareHands_lt_of_le_of_lt {a b c : HandResult}
    (h1 : compareHands a b ≤ 0) (h2 : compareHands b c < 0) :
    compareHands a c < 0 := by
  have hle : compareHands a c ≤ 0 := compareHands_le_trans h1 (le_of_lt h2)
  rcases lt_or_eq_of_le hle with h | h
  · exact h
  · exfalso
    have hca : compareHands c a = 0 := by rw [compareHands_neg]; omega
    have hcb : compareHands c b ≤ 0 := compareHands_le_trans (le_of_eq hca) h1
    have : compareHands b c ≥ 0 := by rw [compareHands_neg]; omega
    omega

theorem compareValues_eq_zero_iff :
    ∀ v w : List Nat, compareValues v w = 0 ↔ ∀ i, v.getD i 0 = w.getD i 0 := by
  intro v
  induction v with
  | nil =>
    intro w
    induction w with
    | nil => simp [compareValues_nil_nil]
    | cons b bs ih =>
      rw [compareValues_nil_cons]
      split_ifs with h
      · constructor
        · intro hb; exfalso; omega
        · intro hall
          have := hall 0
          simp at this
          omega
      · rw [ih]
        constructor
        · intro hall i
          cases i with
          | zero => simp; omega
          | succ j => simpa using hall j
        · intro hall j
          simpa using hall (j + 1)
  | cons a as ih =>
    intro w
    match w with
    | [] =>
      rw [compareValues_cons_nil]
      split_ifs with h
      · constructor
        · intro hb; exfalso; omega
        · intro hall
          have := hall 0
          simp at this
          omega
      · rw [ih []]
        constructor
        · intro hall i
          cases i with
          | zero => simp; omega
          | succ j => simpa using hall j
        · intro hall j
          simpa using hall (j + 1)
    | b :: bs =>
      rw [compareValues_cons_cons]
      split_ifs with h
      · constructor
        · intro hb; exfalso; omega
        · intro hall
          have := hall 0
          simp at this
          omega
      · rw [ih bs]
        constructor
        · intro hall i
          cases i with
          | zero => simp; omega
          | succ j => simpa using hall j
        · intro hall j
          simpa using hall (j + 1)

/-! Combination enumeration and best-hand scan. -/

theorem mem_getCombinations :
    ∀ (arr : List Card) (n : Nat) (c : List Card),
      c ∈ getCombinations arr n ↔ c.Sublist arr ∧ c.length = n := by
  intro arr
  induction arr with
  | nil =>
    intro n c
    cases n with
    | zero =>
      simp only [getCombinations, List.mem_singleton]
      constructor
      · rintro rfl; exact ⟨List.Sublist.refl [], rfl⟩
      · rintro ⟨hsub, hlen⟩
        exact List.length_eq_zero.mp hlen
    | succ m =>
      simp only [getCombinations, List.not_mem_nil, false_iff, not_and]
      intro hsub
      have : c = [] := List.sublist_nil.mp hsub
      subst this
      simp
  | cons a as ih =>
    intro n c
    cases n with
    | zero =>
      simp only [getCombinations, List.mem_singleton]
      constructor
      · rintro rfl; exact ⟨List.nil_sublist _, rfl⟩
      · rintro ⟨hsub, hlen⟩
        exact List.length_eq_zero.mp hlen
    | succ m =>
      simp only [getCombinations, List.mem_append, List.mem_map]
      constructor
      · rintro (⟨d, hd, rfl⟩ | h)
        · obtain ⟨hsub, hlen⟩ := (ih m d).mp hd
          exact ⟨hsub.cons₂ a, by simp [hlen]⟩
        · obtain ⟨hsub, hlen⟩ := (ih (m + 1) c).mp h
          exact ⟨hsub.cons a, hlen⟩
      · rintro ⟨hsub, hlen⟩
        rcases List.sublist_cons_iff.mp hsub with h | ⟨r, rfl, hr⟩
        · exact Or.inr ((ih (m + 1) c).mpr ⟨h, hlen⟩)
        · exact Or.inl ⟨r, (ih m r).mpr ⟨hr, by simpa using hlen⟩, rfl⟩

theorem foldBest_spec (combos : List (List Card)) :
    ∀ b : HandResult,
      ∃ r, combos.foldl bestStep (some b) = some r ∧
        (r = b ∨ ∃ c ∈ combos, r = evaluate5Cards c) ∧
        0 ≤ compareHands r b ∧
        ∀ c ∈ combos, 0 ≤ compareHands r (evaluate5Cards c) := by
  induction combos with
  | nil =>
    intro b
    exact ⟨b, rfl, Or.inl rfl, by simp [compareHands_self], by simp⟩
  | cons c rest ih =>
    intro b
    by_cases h : 0 < compareHands (evaluate5Cards c) b
    · have hstep : bestStep (some b) c = some (evaluate5Cards c) := by
        simp [bestStep, h]
      obtain ⟨r, hr, hor, hge, hall⟩ := ih (evaluate5Cards c)
      refine ⟨r, ?_, ?_, ?_, ?_⟩
      · simpa [hstep] using hr
      · rcases hor with rfl | ⟨c', hc', rfl⟩
        · exact Or.inr ⟨c, List.mem_cons_self c rest, rfl⟩
        · exact Or.inr ⟨c', List.mem_cons_of_mem c hc', rfl⟩
      · have h1 : compareHands b (evaluate5Cards c) < 0 := by
          rw [compareHands_neg]; omega
        have h2 : compareHands (evaluate5Cards c) r ≤ 0 := by
          rw [compareHands_neg]; omega
        have h3 := compareHands_lt_of_lt_of_le h1 h2
        rw [compareHands_neg r b]
        omega
      · intro c' hc'
        rcases List.mem_cons.mp hc' with rfl | hmem
        · exact hge
        · exact hall c' hmem
    · have hstep : bestStep (some b) c = some b := by
        simp [bestStep]
        intro hcon
        omega
      obtain ⟨r, hr, hor, hge, hall⟩ := ih b
      refine ⟨r, ?_, ?_, hge, ?_⟩
      · simpa [hstep] using hr
      · rcases hor with rfl | ⟨c', hc', rfl⟩
        · exact Or.inl rfl
        · exact Or.inr ⟨c', List.mem_cons_of_mem c hc', rfl⟩
      · intro c' hc'
        rcases List.mem_cons.mp hc' with rfl | hmem
        · have h1 : compareHands (evaluate5Cards c') b ≤ 0 := by omega
          have h2 : compareHands b r ≤ 0 := by
            rw [compareHands_neg]; omega
          have h3 := compareHands_le_trans h1 h2
          rw [compareHands_neg r]
          omega
        · exact hall c' hmem

/-! Pot distribution lemmas. -/

theorem foldl_append_acc {α β : Type} (f : α → List β) :
    ∀ (l : List α) (acc : List β),
      l.foldl (fun ops x => ops ++ f x) acc = acc ++ l.foldl (fun ops x => ops ++ f x) [] := by
  intro l
  induction l with
  | nil => intro acc; simp
  | cons x xs ih =>
    intro acc
    simp only [List.foldl_cons, List.nil_append]
    rw [ih (acc ++ f x), ih (f x), List.append_assoc]

theorem distributePots_cons (pot : Pot) (pots : List Pot) (players : List Player)
    (evals : Nat → HandResult) :
    distributePots (pot :: pots) players evals =
      potOperations players evals pot ++ distributePots pots players evals := by
  simp only [distributePots, List.foldl_cons, List.nil_append]
  exact foldl_append_acc (potOperations players evals) pots (potOperations players evals pot)

theorem foldWinners_spec (evals : Nat → HandResult) :
    ∀ (l ws : List Player) (b : HandResult),
      (∀ q ∈ ws, compareHands (evals q.id) b = 0) →
      ∃ b', (l.foldl (winnersStep evals) (some b, ws)).1 = some b' ∧
        0 ≤ compareHands b' b ∧
        (b' = b ∨ ∃ x ∈ l, b' = evals x.id) ∧
        (∀ x ∈ l, compareHands (evals x.id) b' ≤ 0) ∧
        (∀ q, q ∈ (l.foldl (winnersStep evals) (some b, ws)).2 ↔
          ((q ∈ ws ∨ q ∈ l) ∧ compareHands (evals q.id) b' = 0)) := by
  intro l
  induction l with
  | nil =>
    intro ws b hws
    refine ⟨b, rfl, by simp [compareHands_self], Or.inl rfl, by simp, ?_⟩
    intro q
    simp only [List.foldl_nil]
    constructor
    · intro hq
      exact ⟨Or.inl hq, hws q hq⟩
    · rintro ⟨hq | hq, _⟩
      · exact hq
      · exact absurd hq (List.not_mem_nil q)
  | cons p rest ih =>
    intro ws b hws
    by_cases hpos : 0 < compareHands (evals p.id) b
    · have hstep : winnersStep evals (some b, ws) p = (some (evals p.id), [p]) := by
        simp [winnersStep, hpos]
      obtain ⟨b', h1, h2, h3, h4, h5⟩ := ih [p] (evals p.id) (by
        intro q hq
        rcases List.mem_singleton.mp hq with rfl
        exact compareHands_self _)
      have hb'b : 0 < compareHands b' b := by
        have hx : compareHands b (evals p.id) < 0 := by
          rw [compareHands_neg]; omega
        have hy : compareHands (evals p.id) b' ≤ 0 := by
          rw [compareHands_neg]; omega
        have hz := compareHands_lt_of_lt_of_le hx hy
        rw [compareHands_neg b']
        omega
      refine ⟨b', ?_, by omega, ?_, ?_, ?_⟩
      · rw [List.foldl_cons, hstep]
        exact h1
      · rcases h3 with rfl | ⟨x, hx, rfl⟩
        · exact Or.inr ⟨p, List.mem_cons_self p rest, rfl⟩
        · exact Or.inr ⟨x, List.mem_cons_of_mem p hx, rfl⟩
      · intro x hx
        rcases List.mem_cons.mp hx with rfl | hmem
        · rw [compareHands_neg]; omega
        · exact h4 x hmem
      · intro q
        rw [List.foldl_cons, hstep, h5 q]
        constructor
        · rintro ⟨hq | hq, hcmp⟩
          · rcases List.mem_singleton.mp hq with rfl
            exact ⟨Or.inr (List.mem_cons_self _ _), hcmp⟩
          · exact ⟨Or.inr (List.mem_cons_of_mem p hq), hcmp⟩
        · rintro ⟨hq | hq, hcmp⟩
          · exfalso
            have hqb := hws q hq
            have hx : compareHands b b' < 0 := by
              rw [compareHands_neg]; omega
            have hy : compareHands b' (evals q.id) ≤ 0 := by
              rw [compareHands_neg]; omega
            have hz := compareHands_lt_of_lt_of_le hx hy
            have hflip : 0 < compareHands (evals q.id) b := by
              rw [compareHands_neg]; omega
            omega
          · rcases List.mem_cons.mp hq with rfl | hmem
            · exact ⟨Or.inl (List.mem_singleton.mpr rfl), hcmp⟩
            · exact ⟨Or.inr hmem, hcmp⟩
    · by_cases hzero : compareHands (evals p.id) b = 0
      · have hstep : winnersStep evals (some b, ws) p = (some b, ws ++ [p]) := by
          simp [winnersStep, hpos, hzero]
        obtain ⟨b', h1, h2, h3, h4, h5⟩ := ih (ws ++ [p]) b (by
          intro q hq
          rcases List.mem_append.mp hq with hq | hq
          · exact hws q hq
          · rcases List.mem_singleton.mp hq with rfl
            exact hzero)
        refine ⟨b', ?_, h2, ?_, ?_, ?_⟩
        · rw [List.foldl_cons, hstep]
          exact h1
        · rcases h3 with rfl | ⟨x, hx, rfl⟩
          · exact Or.inl rfl
          · exact Or.inr ⟨x, List.mem_cons_of_mem p hx, rfl⟩
        · intro x hx
          rcases List.mem_cons.mp hx with rfl | hmem
          · have hy : compareHands b b' ≤ 0 := by
              rw [compareHands_neg]; omega
            exact compareHands_le_trans (le_of_eq hzero) hy
          · exact h4 x hmem
        · intro q
          rw [List.foldl_cons, hstep, h5 q]
          constructor
          · rintro ⟨hq | hq, hcmp⟩
            · rcases List.mem_append.mp hq with hq | hq
              · exact ⟨Or.inl hq, hcmp⟩
              · rcases List.mem_singleton.mp hq with rfl
                exact ⟨Or.inr (List.mem_cons_self _ _), hcmp⟩
            · exact ⟨Or.inr (List.mem_cons_of_mem p hq), hcmp⟩
          · rintro ⟨hq | hq, hcmp⟩
            · exact ⟨Or.inl (List.mem_append.mpr (Or.inl hq)), hcmp⟩
            · rcases List.mem_cons.mp hq with rfl | hmem
              · exact ⟨Or.inl (List.mem_append.mpr (Or.inr (List.mem_singleton.mpr rfl))), hcmp⟩
              · exact ⟨Or.inr hmem, hcmp⟩
      · have hneg : compareHands (evals p.id) b < 0 := by omega
        have hstep : winnersStep evals (some b, ws) p = (some b, ws) := by
          simp [winnersStep, hpos, hzero]
        obtain ⟨b', h1, h2, h3, h4, h5⟩ := ih ws b hws
        have hpb' : compareHands (evals p.id) b' < 0 := by
          have hy : compareHands b b' ≤ 0 := by
            rw [compareHands_neg]; omega
          exact compareHands_lt_of_lt_of_le hneg hy
        refine ⟨b', ?_, h2, ?_, ?_, ?_⟩
        · rw [List.foldl_cons, hstep]
          exact h1
        · rcases h3 with rfl | ⟨x, hx, rfl⟩
          · exact Or.inl rfl
          · exact Or.inr ⟨x, List.mem_cons_of_mem p hx, rfl⟩
        · intro x hx
          rcases List.mem_cons.mp hx with rfl | hmem
          · omega
          · exact h4 x hmem
        · intro q
          rw [List.foldl_cons, hstep, h5 q]
          constructor
          · rintro ⟨hq | hq, hcmp⟩
            · exact ⟨Or.inl hq, hcmp⟩
            · exact ⟨Or.inr (List.mem_cons_of_mem p hq), hcmp⟩
          · rintro ⟨hq | hq, hcmp⟩
            · exact ⟨Or.inl hq, hcmp⟩
            · rcases List.mem_cons.mp hq with rfl | hmem
              · exfalso; omega
              · exact ⟨Or.inr hmem, hcmp⟩

theorem findWinners_spec (evals : Nat → HandResult) (p : Player) (l : List Player) :
    ∃ b', 0 ≤ compareHands b' (evals p.id) ∧
      (∃ x ∈ p :: l, b' = evals x.id) ∧
      (∀ x ∈ p :: l, compareHands (evals x.id) b' ≤ 0) ∧
      (∀ q, q ∈ findWinners evals (p :: l) ↔
        (q ∈ p :: l ∧ compareHands (evals q.id) b' = 0)) := by
  obtain ⟨b', h1, h2, h3, h4, h5⟩ := foldWinners_spec evals l [p] (evals p.id) (by
    intro q hq
    rcases List.mem_singleton.mp hq with rfl
    exact compareHands_self _)
  have hfw : findWinners evals (p :: l) =
      (l.foldl (winnersStep evals) (some (evals p.id), [p])).2 := by
    simp [findWinners, winnersStep]
  refine ⟨b', h2, ?_, ?_, ?_⟩
  · rcases h3 with rfl | ⟨x, hx, rfl⟩
    · exact ⟨p, List.mem_cons_self p l, rfl⟩
    · exact ⟨x, List.mem_cons_of_mem p hx, rfl⟩
  · intro x hx
    rcases List.mem_cons.mp hx with rfl | hmem
    · rw [compareHands_neg]; omega
    · exact h4 x hmem
  · intro q
    rw [hfw, h5 q]
    constructor
    · rintro ⟨hq | hq, hcmp⟩
      · rcases List.mem_singleton.mp hq with rfl
        exact ⟨List.mem_cons_self _ _, hcmp⟩
      · exact ⟨List.mem_cons_of_mem p hq, hcmp⟩
    · rintro ⟨hq, hcmp⟩
      rcases List.mem_cons.mp hq with rfl | hmem
      · exact ⟨Or.inl (List.mem_singleton.mpr rfl), hcmp⟩
      · exact ⟨Or.inr hmem, hcmp⟩

theorem findWinners_ne_nil (evals : Nat → HandResult) (p : Player) (l : List Player) :
    findWinners evals (p :: l) ≠ [] := by
  obtain ⟨b', _, ⟨x, hx, rfl⟩, _, h5⟩ := findWinners_spec evals p l
  intro hnil
  have hxw : x ∈ findWinners evals (p :: l) := (h5 x).mpr ⟨hx, compareHands_self _⟩
  rw [hnil] at hxw
  exact List.not_mem_nil x hxw

theorem sum_map_const_nat {α : Type} (l : List α) (c : Nat) :
    (l.map (fun _ => c)).sum = l.length * c := by
  induction l with
  | nil => simp
  | cons x xs ih => simp [ih, Nat.succ_mul, Nat.add_comm]

theorem potPayouts_sum (pot : Pot) (evals : Nat → HandResult) (es : List Player)
    (hne : es ≠ []) :
    ((potPayouts pot evals es).map Operation.amount).sum = pot.amount := by
  match es with
  | [] => exact absurd rfl hne
  | [p] => simp [potPayouts]
  | p :: q :: rest =>
    rw [potPayouts]
    match hwin : findWinners evals (p :: q :: rest) with
    | [] => exact absurd hwin (findWinners_ne_nil evals p (q :: rest))
    | w :: ws =>
      simp only [List.map_cons, List.map_map, List.sum_cons]
      rw [show ((ws.map (Operation.amount ∘ fun v =>
          ({ playerId := v.id, amount := pot.amount / (w :: ws).length, type := "win",
             hand := some (evals v.id) } : Operation)))).sum
          = ws.length * (pot.amount / (w :: ws).length) from sum_map_const_nat ws _]
      simp only [List.length_cons]
      have hdm := Nat.div_add_mod pot.amount (ws.length + 1)
      rw [Nat.succ_mul] at hdm
      omega

theorem potOperations_sum (players : List Player) (evals : Nat → HandResult) (pot : Pot)
    (hne : players.filter (fun p => pot.eligiblePlayers.contains p.id && !p.folded) ≠ []) :
    ((potOperations players evals pot).map Operation.amount).sum = pot.amount := by
  rw [potOperations]
  exact potPayouts_sum pot evals _ hne

/-! Table-engine helper lemmas. -/

theorem clearOthers_cons (p : Player) (ps : List Player) (a : Nat) (f : Nat → Bool) :
    clearOthers (p :: ps) a f =
      clearOthers ps a (if p.id ≠ a then Function.update f p.id false else f) := rfl

theorem clearOthers_false_preserved :
    ∀ (l : List Player) (a : Nat) (f : Nat → Bool) (i : Nat),
      f i = false → clearOthers l a f i = false := by
  intro l
  induction l with
  | nil =>
    intro a f i h
    exact h
  | cons p ps ih =>
    intro a f i h
    rw [clearOthers_cons]
    apply ih
    split_ifs with hpa
    · rw [Function.update_apply]
      split_ifs with hip
      · rfl
      · exact h
    · exact h

theorem clearOthers_mem_false :
    ∀ (l : List Player) (a : Nat) (f : Nat → Bool) (q : Player),
      q ∈ l → q.id ≠ a → clearOthers l a f q.id = false := by
  intro l
  induction l with
  | nil =>
    intro a f q hq _
    exact absurd hq (List.not_mem_nil q)
  | cons p ps ih =>
    intro a f q hq hqa
    rw [clearOthers_cons]
    rcases List.mem_cons.mp hq with rfl | hmem
    · rw [if_pos hqa]
      apply clearOthers_false_preserved
      rw [Function.update_apply]
      simp
    · exact ih a _ q hmem hqa

theorem setEntry_cons (k b : Nat) (rest : List (Nat × Nat)) (pid v : Nat) :
    setEntry ((k, b) :: rest) pid v =
      (if k = pid then (pid, v) else (k, b)) :: setEntry rest pid v := rfl

theorem getBet_cons (k b : Nat) (rest : List (Nat × Nat)) (pid : Nat) :
    getBet ((k, b) :: rest) pid = if k = pid then b else getBet rest pid := by
  by_cases h : k = pid
  · simp [getBet, List.lookup, h]
  · have h' : (pid == k) = false := by
      simp
      exact fun hh => h hh.symm
    simp [getBet, List.lookup, h, h']

theorem getBet_setEntry :
    ∀ (bets : List (Nat × Nat)) (pid v : Nat), pid ∈ bets.map Prod.fst →
      getBet (setEntry bets pid v) pid = v := by
  intro bets
  induction bets with
  | nil =>
    intro pid v hmem
    simp at hmem
  | cons e rest ih =>
    intro pid v hmem
    obtain ⟨k, b⟩ := e
    rw [setEntry_cons]
    by_cases he : k = pid
    · rw [if_pos he, getBet_cons]
      simp
    · rw [if_neg he, getBet_cons, if_neg he]
      apply ih
      simp only [List.map_cons, List.mem_cons] at hmem
      rcases hmem with h | h
      · exact absurd h.symm he
      · exact h

/-! Claim theorems. -/

/-- C1: the spec demands that the recomputed chip total (stacks plus
current-round contributions plus settled pots) equal the fixed starting total
EXPECTED_TOTAL = 6000 after every settlement.  The code violates this: on a
fully legal trace (pre-flop, all six seats call the big blind; flop, all six
seats check) the total is 6000 after the first completeBettingRound, but the
second completeBettingRound wipes the 60-chip pre-flop pot, because
createPots first clears the pot list and then bails out on the all-zero flop
contributions, leaving the recomputed total at 5940 ≠ 6000 — the engine's own
integrity check fires on ordinary play. -/
theorem c1_chip_total_lost_at_second_settlement :
    totalChips handStart = EXPECTED_TOTAL ∧
    totalChips afterFirstSettlement = EXPECTED_TOTAL ∧
    totalChips afterSecondSettlement = 5940 ∧
    totalChips afterSecondSettlement ≠ EXPECTED_TOTAL := by
  refine ⟨by decide, by decide, by decide, by decide⟩

/-- C2: the claim that createPots partitions the full contribution sum over
the non-zero levels fails on the code: with contributions {P0: 100, P1: 0}
(both players live) the zero entry makes the smallest collected bet level 0,
so createPots returns no pots at all and the 100 contributed chips are
dropped instead of forming a pot ladder summing to 100. -/
theorem c2_zero_level_discards_contributions :
    createPots c2players c2bets = [] ∧
    getTotalPot (createPots c2players c2bets) = 0 ∧
    (c2bets.map Prod.snd).sum = 100 := by
  refine ⟨by decide, by decide, by decide⟩

/-- C5 counterexample: on contributions {P0: 100, P1: 50} the code's first
pot has amount 100 (50 matched from each player), not 50 as claimed, so the
claimed pot list [50 at level one, 50 refund] is wrong. -/
theorem c5_counterexample_first_pot_is_100 :
    (createPots c5players c5bets).map Pot.amount = [100, 50] ∧
    ¬ (createPots c5players c5bets).map Pot.amount = [50, 50] := by
  refine ⟨by decide, by decide⟩

/-- C5 amended: contributions {P0: 100, P1: 50} with every other player
folded produce exactly two pots — amount 100 eligible {P0, P1} and amount 50
eligible {P0} only — and distributing them when P0's hand strictly beats
P1's yields exactly one win operation of 100 to P0 and one return operation
of 50 to P0. -/
theorem c5_amended_pot_ladder_and_distribution :
    createPots c5players c5bets =
      [{ amount := 100, eligiblePlayers := [0, 1] },
       { amount := 50, eligiblePlayers := [0] }] ∧
    0 < compareHands (c5evals 0) (c5evals 1) ∧
    distributePots (createPots c5players c5bets) c5players c5evals =
      [{ playerId := 0, amount := 100, type := "win", hand := some strongHand },
       { playerId := 0, amount := 50, type := "return", hand := none }] := by
  refine ⟨by decide, by decide, by decide⟩

theorem distributePots_append (l1 l2 : List Pot) (players : List Player)
    (evals : Nat → HandResult) :
    distributePots (l1 ++ l2) players evals =
      distributePots l1 players evals ++ distributePots l2 players evals := by
  induction l1 with
  | nil => rfl
  | cons pot rest ih =>
    rw [List.cons_append, distributePots_cons, distributePots_cons, ih, List.append_assoc]

/-- C3 counterexample: a 7-chip pot whose eligibility list is empty is
silently skipped by distributePots, so the operation amounts sum to 0, not
to the 7-chip pot total. -/
theorem c3_counterexample_empty_eligibility_pot_skipped :
    ((distributePots c3pots c3players c3evals).map Operation.amount).sum = 0 ∧
    getTotalPot c3pots = 7 ∧
    ¬ ((distributePots c3pots c3players c3evals).map Operation.amount).sum
        = getTotalPot c3pots := by
  refine ⟨by decide, by decide, by decide⟩

/-- C3 amended: provided every pot in the list has at least one eligible
player who has not folded (true of every pot the engine builds and
distributes in one step), the sum of the amounts of all operations emitted
by distributePots equals the sum of all pot amounts, and every emitted
amount is a non-negative integer. -/
theorem c3_distribution_conserves_pot_total
    (pots : List Pot) (players : List Player) (evals : Nat → HandResult)
    (hlive : ∀ pot ∈ pots,
      players.filter (fun p => pot.eligiblePlayers.contains p.id && !p.folded) ≠ []) :
    ((distributePots pots players evals).map Operation.amount).sum = getTotalPot pots ∧
    ∀ op ∈ distributePots pots players evals, 0 ≤ (op.amount : Int) := by
  constructor
  · induction pots with
    | nil => rfl
    | cons pot rest ih =>
      rw [distributePots_cons, List.map_append, List.sum_append,
        potOperations_sum players evals pot (hlive pot (List.mem_cons_self _ _)),
        ih (fun x hx => hlive x (List.mem_cons_of_mem pot hx))]
      simp [getTotalPot]
  · intro op _
    exact Int.natCast_nonneg op.amount

/-- C3 witness: the conservation theorem applied to a concrete 10-chip pot
with two live eligible players. -/
theorem c3_witness :
    (∀ pot ∈ c3wpots,
      c3wplayers.filter (fun p => pot.eligiblePlayers.contains p.id && !p.folded) ≠ []) ∧
    ((distributePots c3wpots c3wplayers c3evals).map Operation.amount).sum
        = getTotalPot c3wpots ∧
    ∀ op ∈ distributePots c3wpots c3wplayers c3evals, 0 ≤ (op.amount : Int) :=
  ⟨by decide, c3_distribution_conserves_pot_total c3wpots c3wplayers c3evals (by decide)⟩

/-- C4: whenever a pot's eligible players restricted to the non-folded ones
are exactly one player p, distributePots emits for that pot a single
operation of type return carrying the full pot amount to p, and the
operations for that pot do not depend on the hand evaluations at all (no
hand comparison happens). -/
theorem c4_uncalled_bet_refund
    (players : List Player) (evals : Nat → HandResult) (pot : Pot) (p : Player)
    (l1 l2 : List Pot)
    (hfil : players.filter (fun x => pot.eligiblePlayers.contains x.id && !x.folded) = [p]) :
    potOperations players evals pot =
      [{ playerId := p.id, amount := pot.amount, type := "return", hand := none }] ∧
    (∀ evals' : Nat → HandResult,
      potOperations players evals' pot = potOperations players evals pot) ∧
    distributePots (l1 ++ pot :: l2) players evals =
      distributePots l1 players evals ++
        [{ playerId := p.id, amount := pot.amount, type := "return", hand := none }] ++
        distributePots l2 players evals := by
  have hops : potOperations players evals pot =
      [{ playerId := p.id, amount := pot.amount, type := "return", hand := none }] := by
    rw [potOperations, hfil]
    rfl
  refine ⟨hops, ?_, ?_⟩
  · intro evals'
    rw [potOperations, hfil, potOperations, hfil]
    simp [potPayouts]
  · rw [distributePots_append, distributePots_cons, hops, List.append_assoc]

/-- C4 witness: the refund theorem applied to a concrete 25-chip pot whose
second eligible player has folded. -/
theorem c4_witness :
    c4players.filter (fun x => c4pot.eligiblePlayers.contains x.id && !x.folded) = [c4p0] ∧
    potOperations c4players c3evals c4pot =
      [{ playerId := c4p0.id, amount := c4pot.amount, type := "return", hand := none }] :=
  ⟨by decide,
    (c4_uncalled_bet_refund c4players c3evals c4pot c4p0 [] [] (by decide)).1⟩

/-- C6: every contested pot (at least two live eligible players) is split by
integer division among the tied maximal-strength winners — the winner list
is exactly the live eligible players whose hand compares greater than or
equal to every other live eligible hand, in scan order — with the integer
remainder added to the amount of the first winner in that order; the emitted
amounts always sum back to the pot amount.  In particular, a 101-chip pot
with exactly 2 tied winners yields amounts 51 and 50 in that order, summing
to 101. -/
theorem c6_contested_split_remainder_to_first :
    (∀ (players : List Player) (evals : Nat → HandResult) (pot : Pot) (p q : Player)
        (rest : List Player),
      players.filter (fun x => pot.eligiblePlayers.contains x.id && !x.folded)
          = p :: q :: rest →
      ∃ w ws, findWinners evals (p :: q :: rest) = w :: ws ∧
        potOperations players evals pot =
          { playerId := w.id,
            amount := pot.amount / (w :: ws).length + pot.amount % (w :: ws).length,
            type := "win", hand := some (evals w.id) } ::
            ws.map (fun v =>
              { playerId := v.id, amount := pot.amount / (w :: ws).length,
                type := "win", hand := some (evals v.id) }) ∧
        ((potOperations players evals pot).map Operation.amount).sum = pot.amount ∧
        (∀ y, y ∈ w :: ws ↔ (y ∈ p :: q :: rest ∧
          ∀ r ∈ p :: q :: rest, 0 ≤ compareHands (evals y.id) (evals r.id)))) ∧
    (potOperations c6players c6evals c6pot).map Operation.amount = [51, 50] ∧
    ((potOperations c6players c6evals c6pot).map Operation.amount).sum = 101 := by
  refine ⟨?_, by decide, by decide⟩
  intro players evals pot p q rest hfil
  match hfw : findWinners evals (p :: q :: rest) with
  | [] => exact absurd hfw (findWinners_ne_nil evals p (q :: rest))
  | w :: ws =>
    refine ⟨w, ws, rfl, ?_, ?_, ?_⟩
    · rw [potOperations, hfil, potPayouts, hfw]
    · rw [potOperations, hfil]
      exact potPayouts_sum pot evals _ (by simp)
    · obtain ⟨b', hge, ⟨x, hx, hbx⟩, hmax, hmem⟩ := findWinners_spec evals p (q :: rest)
      intro y
      constructor
      · intro hy
        have hy' := (hmem y).mp (by rw [hfw]; exact hy)
        obtain ⟨hyes, hcmp⟩ := hy'
        refine ⟨hyes, ?_⟩
        intro r hr
        have h1 : compareHands (evals r.id) b' ≤ 0 := hmax r hr
        have h2 : compareHands b' (evals y.id) ≤ 0 := by
          rw [compareHands_neg]
          omega
        have h3 := compareHands_le_trans h1 h2
        rw [compareHands_neg]
        omega
      · rintro ⟨hyes, hall⟩
        have hle : compareHands (evals y.id) b' ≤ 0 := hmax y hyes
        have hge2 : 0 ≤ compareHands (evals y.id) b' := by
          rw [hbx]
          exact hall x hx
        have : y ∈ findWinners evals (p :: q :: rest) :=
          (hmem y).mpr ⟨hyes, by omega⟩
        rw [hfw] at this
        exact this

/-- C6 witness: the general split theorem applied to the concrete 101-chip
pot contested by two tied players. -/
theorem c6_witness :
    c6players.filter (fun x => c6pot.eligiblePlayers.contains x.id && !x.folded)
        = mkP 0 0 0 0 :: mkP 1 0 0 0 :: [] ∧
    (∃ w ws, findWinners c6evals (mkP 0 0 0 0 :: mkP 1 0 0 0 :: []) = w :: ws ∧
      potOperations c6players c6evals c6pot =
        { playerId := w.id,
          amount := c6pot.amount / (w :: ws).length + c6pot.amount % (w :: ws).length,
          type := "win", hand := some (c6evals w.id) } ::
          ws.map (fun v =>
            { playerId := v.id, amount := c6pot.amount / (w :: ws).length,
              type := "win", hand := some (c6evals v.id) }) ∧
      ((potOperations c6players c6evals c6pot).map Operation.amount).sum = c6pot.amount ∧
      (∀ y, y ∈ w :: ws ↔ (y ∈ mkP 0 0 0 0 :: mkP 1 0 0 0 :: [] ∧
        ∀ r ∈ mkP 0 0 0 0 :: mkP 1 0 0 0 :: [],
          0 ≤ compareHands (c6evals y.id) (c6evals r.id)))) :=
  ⟨by decide,
    c6_contested_split_remainder_to_first.1 c6players c6evals c6pot
      (mkP 0 0 0 0) (mkP 1 0 0 0) [] (by decide)⟩

/-- C7: for a list of exactly 6 or exactly 7 cards, evaluateHand returns the
maximum under compareHands over the evaluations of every 5-card subset of
the input: the result equals evaluate5Cards of some 5-card subset (a
length-5 sublist) and compares greater than or equal to evaluate5Cards of
every 5-card subset. -/
theorem c7_evaluateHand_is_max_over_subsets
    (cards : List Card) (hlen : cards.length = 6 ∨ cards.length = 7) :
    ∃ h, evaluateHand cards = some h ∧
      (∃ c, c.Sublist cards ∧ c.length = 5 ∧ h = evaluate5Cards c) ∧
      (∀ c, c.Sublist cards → c.length = 5 → 0 ≤ compareHands h (evaluate5Cards c)) := by
  have hbest : evaluateHand cards = bestOfCombinations (getCombinations cards 5) := by
    rcases hlen with h6 | h7
    · rw [evaluateHand, if_neg (by omega), if_neg (by omega), if_pos h6]
    · rw [evaluateHand, if_neg (by omega), if_pos h7]
      rfl
  have htake : cards.take 5 ∈ getCombinations cards 5 := by
    rw [mem_getCombinations]
    refine ⟨List.take_sublist 5 cards, ?_⟩
    rcases hlen with h | h <;> simp [List.length_take, h]
  match hcomb : getCombinations cards 5 with
  | [] =>
    rw [hcomb] at htake
    exact absurd htake (List.not_mem_nil _)
  | c0 :: combos =>
    have hfold : bestOfCombinations (c0 :: combos) =
        combos.foldl bestStep (some (evaluate5Cards c0)) := rfl
    obtain ⟨r, hr, hor, hge, hall⟩ := foldBest_spec combos (evaluate5Cards c0)
    refine ⟨r, ?_, ?_, ?_⟩
    · rw [hbest, hcomb, hfold, hr]
    · rcases hor with rfl | ⟨c', hc', rfl⟩
      · have hc0 : c0 ∈ getCombinations cards 5 := by
          rw [hcomb]; exact List.mem_cons_self _ _
        obtain ⟨hs, hl⟩ := (mem_getCombinations cards 5 c0).mp hc0
        exact ⟨c0, hs, hl, rfl⟩
      · have hmem : c' ∈ getCombinations cards 5 := by
          rw [hcomb]; exact List.mem_cons_of_mem _ hc'
        obtain ⟨hs, hl⟩ := (mem_getCombinations cards 5 c').mp hmem
        exact ⟨c', hs, hl, rfl⟩
    · intro c hs hl
      have hc : c ∈ getCombinations cards 5 := (mem_getCombinations cards 5 c).mpr ⟨hs, hl⟩
      rw [hcomb] at hc
      rcases List.mem_cons.mp hc with rfl | hmem
      · exact hge
      · exact hall c hmem

/-- C7 witness: the subset-maximality theorem applied to a concrete 6-card
input. -/
theorem c7_witness :
    ∃ h, evaluateHand c7cards = some h ∧
      (∃ c, c.Sublist c7cards ∧ c.length = 5 ∧ h = evaluate5Cards c) ∧
      (∀ c, c.Sublist c7cards → c.length = 5 →
        0 ≤ compareHands h (evaluate5Cards c)) :=
  c7_evaluateHand_is_max_over_subsets c7cards (Or.inl rfl)

/-- C8: compareHands is a total order on hand-evaluation results compatible
with comparing ranking first and then the zero-padded values vectors
lexicographically: the two orientations have opposite sign, exactly one of
greater, less or equal holds for any two results, strict comparison is
transitive, the result is 0 exactly when the rankings agree and the values
vectors agree at every index once padded with 0, a ranking difference
decides the comparison alone, and equal rankings delegate to the values
comparison. -/
theorem c8_compareHands_total_order :
    (∀ a b : HandResult, compareHands a b = -compareHands b a) ∧
    (∀ a b : HandResult,
      (0 < compareHands a b ∧ compareHands b a < 0) ∨
      (compareHands a b < 0 ∧ 0 < compareHands b a) ∨
      (compareHands a b = 0 ∧ compareHands b a = 0)) ∧
    (∀ a b c : HandResult,
      0 < compareHands a b → 0 < compareHands b c → 0 < compareHands a c) ∧
    (∀ a b : HandResult, compareHands a b = 0 ↔
      (a.ranking = b.ranking ∧ ∀ i, a.values.getD i 0 = b.values.getD i 0)) ∧
    (∀ a b : HandResult, a.ranking ≠ b.ranking →
      compareHands a b = (a.ranking : Int) - (b.ranking : Int)) ∧
    (∀ a b : HandResult, a.ranking = b.ranking →
      compareHands a b = compareValues a.values b.values) := by
  refine ⟨compareHands_neg, ?_, ?_, ?_, ?_, ?_⟩
  · intro a b
    have h := compareHands_neg a b
    rcases lt_trichotomy (compareHands a b) 0 with hlt | heq | hgt
    · exact Or.inr (Or.inl ⟨hlt, by omega⟩)
    · exact Or.inr (Or.inr ⟨heq, by omega⟩)
    · exact Or.inl ⟨hgt, by omega⟩
  · intro a b c h1 h2
    have hba : compareHands b a < 0 := by
      have := compareHands_neg b a
      omega
    have hcb : compareHands c b < 0 := by
      have := compareHands_neg c b
      omega
    have hca := compareHands_lt_of_lt_of_le hcb (le_of_lt hba)
    have hx := compareHands_neg c a
    omega
  · intro a b
    constructor
    · intro h
      by_cases hr : a.ranking = b.ranking
      · refine ⟨hr, ?_⟩
        rw [compareHands, if_neg (by simpa using hr)] at h
        exact (compareValues_eq_zero_iff _ _).mp h
      · rw [compareHands, if_pos (by simpa using hr)] at h
        exact absurd (by omega : a.ranking = b.ranking) hr
    · rintro ⟨hr, hvals⟩
      rw [compareHands, if_neg (by simpa using hr)]
      exact (compareValues_eq_zero_iff _ _).mpr hvals
  · intro a b hr
    rw [compareHands, if_pos (by simpa using hr)]
  · intro a b hr
    rw [compareHands, if_neg (by simpa using hr)]

/-- C8 witness: transitivity of the comparator applied to three concrete
hand results with strictly decreasing strength. -/
theorem c8_witness :
    0 < compareHands c8handA c8handB ∧ 0 < compareHands c8handB c8handC ∧
    0 < compareHands c8handA c8handC :=
  ⟨by decide, by decide,
    c8_compareHands_total_order.2.2.1 c8handA c8handB c8handC (by decide) (by decide)⟩

/-- C9: a betting round is never reported complete while some player who can
act (not folded, not all-in, positive stack) has not acted this round or has
a current-round contribution below the table-high bet; every bet or raise
clears the has-acted flag of every other player; an all-in clears them only
when it raises the table-high bet, and an all-in that does not raise leaves
every other player's has-acted flag unchanged, so it does not itself close
the round for the other actors. -/
theorem c9_round_never_completes_early :
    (∀ (s : GameState) (p : Player), p ∈ s.players → p.canAct = true →
      (s.playersActedThisRound p.id = false ∨ getBet s.currentBets p.id < s.currentBet) →
      isBettingRoundComplete s = false) ∧
    (∀ (s : GameState) (pid amt : Nat) (q : Player),
      (s.players.find? (fun p => p.id == pid)).isSome = true →
      q ∈ s.players → q.id ≠ pid →
      (processPlayerAction s pid Action.bet amt).playersActedThisRound q.id = false ∧
      (processPlayerAction s pid Action.raise amt).playersActedThisRound q.id = false) ∧
    (∀ (s : GameState) (pid amt : Nat) (pl q : Player),
      s.players.find? (fun p => p.id == pid) = some pl →
      pid ∈ s.currentBets.map Prod.fst →
      q ∈ s.players → q.id ≠ pid →
      ((s.currentBet < getBet s.currentBets pid + pl.stack →
        (processPlayerAction s pid Action.allIn amt).playersActedThisRound q.id = false) ∧
       (getBet s.currentBets pid + pl.stack ≤ s.currentBet →
        (processPlayerAction s pid Action.allIn amt).playersActedThisRound q.id =
          s.playersActedThisRound q.id))) := by
  refine ⟨?_, ?_, ?_⟩
  · intro s p hp hact hail
    have hmemf : p ∈ s.players.filter Player.canAct := List.mem_filter.mpr ⟨hp, hact⟩
    have hlen : ¬ (s.players.filter Player.canAct).length = 0 := by
      have hne := List.ne_nil_of_mem hmemf
      simpa [List.length_eq_zero] using hne
    rw [isBettingRoundComplete]
    rw [if_neg hlen]
    by_cases hany1 :
        s.players.any (fun x => x.canAct && !(s.playersActedThisRound x.id)) = true
    · rw [if_pos hany1]
    · rw [if_neg hany1]
      have hany2 : s.players.any
          (fun x => x.canAct && decide (getBet s.currentBets x.id < s.currentBet)) = true := by
        rcases hail with hna | hlt
        · exact absurd (List.any_eq_true.mpr ⟨p, hp, by simp [hact, hna]⟩) hany1
        · exact List.any_eq_true.mpr ⟨p, hp, by simp [hact, hlt]⟩
      rw [if_pos hany2]
  · intro s pid amt q hfind hq hqid
    obtain ⟨pl, hpl⟩ := Option.isSome_iff_exists.mp hfind
    have hqmem : ∀ f : Player → Player, q ∈ updatePlayer s.players pid f := by
      intro f
      rw [updatePlayer]
      exact List.mem_map.mpr ⟨q, hq, by simp [hqid]⟩
    constructor
    · simp only [processPlayerAction, hpl, moveToNextPlayer, validateGameState]
      exact clearOthers_mem_false _ pid _ q (hqmem _) hqid
    · simp only [processPlayerAction, hpl, moveToNextPlayer, validateGameState]
      exact clearOthers_mem_false _ pid _ q (hqmem _) hqid
  · intro s pid amt pl q hfind hkey hq hqid
    have hqmem : ∀ f : Player → Player, q ∈ updatePlayer s.players pid f := by
      intro f
      rw [updatePlayer]
      exact List.mem_map.mpr ⟨q, hq, by simp [hqid]⟩
    have hcond : getBet (setEntry s.currentBets pid
        (getBet s.currentBets pid + pl.betActual pl.stack)) pid =
        getBet s.currentBets pid + pl.stack := by
      rw [getBet_setEntry _ _ _ hkey, Player.betActual, Nat.min_self]
    constructor
    · intro hlt
      simp only [processPlayerAction, hfind, moveToNextPlayer, validateGameState, hcond]
      rw [if_pos hlt]
      exact clearOthers_mem_false _ pid _ q (hqmem _) hqid
    · intro hle
      simp only [processPlayerAction, hfind, moveToNextPlayer, validateGameState, hcond]
      rw [if_neg (by omega)]
      dsimp only
      rw [Function.update_apply, if_neg hqid]

/-- C9 witness: in the concrete mid-round state c9state, seat 2 can act and
has neither acted nor matched the 10-chip table-high bet, so the round is
not complete. -/
theorem c9_witness :
    mkP 2 1000 0 0 ∈ c9state.players ∧ (mkP 2 1000 0 0).canAct = true ∧
    (c9state.playersActedThisRound (mkP 2 1000 0 0).id = false ∨
      getBet c9state.currentBets (mkP 2 1000 0 0).id < c9state.currentBet) ∧
    isBettingRoundComplete c9state = false :=
  ⟨by decide, by decide, by decide,
    c9_round_never_completes_early.1 c9state (mkP 2 1000 0 0)
      (by decide) (by decide) (by decide)⟩

/-- Head shape of processing an all-in by the first player: that player pays
the entire remaining stack (stack drops to 0 and the round contribution
rises by the full stack). -/
theorem processAllIn_head (s : GameState) (human : Player) (rest : List Player)
    (hp : s.players = human :: rest) :
    ∃ p' rest',
      (processPlayerAction s human.id Action.allIn human.stack).players = p' :: rest' ∧
      p'.stack = 0 ∧ p'.currentBet = human.currentBet + human.stack := by
  have hfind : s.players.find? (fun p => p.id == human.id) = some human := by
    rw [hp]
    simp [List.find?]
  simp only [processPlayerAction, hfind]
  split_ifs with hcond <;>
  · simp only [moveToNextPlayer, validateGameState, updatePlayer, hp, List.map_cons]
    refine ⟨_, _, rfl, ?_, ?_⟩ <;>
      simp [Player.payBet, Nat.min_self, Nat.sub_self]

/-- C10: with a human decision pending, humanCall facing a call amount at
least the human's stack, and humanBet or humanRaise given an amount at least
the human's stack, do not process the named action but process an all-in
paying the entire remaining stack; otherwise the named action is processed
with the given amount. -/
theorem c10_short_stack_redirects_to_all_in
    (s : GameState) (human : Player) (rest : List Player) (amount : Nat)
    (hw : s.waitingForHumanAction = true) (hp : s.players = human :: rest) :
    ((human.stack ≤ s.currentBet - getBet s.currentBets human.id →
        humanCall s = processPlayerAction { s with waitingForHumanAction := false }
          human.id Action.allIn human.stack) ∧
     (s.currentBet - getBet s.currentBets human.id < human.stack →
        humanCall s = processPlayerAction { s with waitingForHumanAction := false }
          human.id Action.call (s.currentBet - getBet s.currentBets human.id))) ∧
    ((human.stack ≤ amount →
        humanBet s amount = processPlayerAction { s with waitingForHumanAction := false }
          human.id Action.allIn human.stack ∧
        humanRaise s amount = processPlayerAction { s with waitingForHumanAction := false }
          human.id Action.allIn human.stack) ∧
     (amount < human.stack →
        humanBet s amount = processPlayerAction { s with waitingForHumanAction := false }
          human.id Action.bet amount ∧
        humanRaise s amount = processPlayerAction { s with waitingForHumanAction := false }
          human.id Action.raise amount)) ∧
    (∃ p' rest',
      (processPlayerAction { s with waitingForHumanAction := false }
        human.id Action.allIn human.stack).players = p' :: rest' ∧
      p'.stack = 0 ∧ p'.currentBet = human.currentBet + human.stack) := by
  have hhead : s.players.head? = some human := by rw [hp]; rfl
  have hAllIn : humanAllIn s = processPlayerAction { s with waitingForHumanAction := false }
      human.id Action.allIn human.stack := by
    simp [humanAllIn, hw, hhead]
  refine ⟨⟨?_, ?_⟩, ⟨?_, ?_⟩, ?_⟩
  · intro hle
    simp only [humanCall, hw, hhead]
    rw [if_neg (by simp), if_pos hle, hAllIn]
  · intro hlt
    simp only [humanCall, hw, hhead]
    rw [if_neg (by simp), if_neg (by omega)]
  · intro hle
    constructor
    · simp only [humanBet, hw, hhead]
      rw [if_neg (by simp), if_pos hle, hAllIn]
    · simp only [humanRaise, hw, hhead]
      rw [if_neg (by simp), if_pos hle, hAllIn]
  · intro hlt
    constructor
    · simp only [humanBet, hw, hhead]
      rw [if_neg (by simp), if_neg (by omega)]
    · simp only [humanRaise, hw, hhead]
      rw [if_neg (by simp), if_neg (by omega)]
  · exact processAllIn_head { s with waitingForHumanAction := false } human rest hp

/-- C10 witness: the redirect theorem applied to the concrete pending state
c10state, where the required call of 500 exceeds the human's 120-chip
stack. -/
theorem c10_witness :
    c10state.waitingForHumanAction = true ∧
    c10human.stack ≤ c10state.currentBet - getBet c10state.currentBets c10human.id ∧
    humanCall c10state = processPlayerAction
      { c10state with waitingForHumanAction := false }
      c10human.id Action.allIn c10human.stack :=
  ⟨by decide, by decide,
    (c10_short_stack_redirects_to_all_in c10state c10human [mkP 1 500 500 500] 0
      rfl rfl).1.1 (by decide)⟩

end PokerEngine
